import Mathlib

/-!
Verification of the di-matrix-cli dependency-analysis core against its
natural-language specification.  The Go sources are shallowly embedded:
Go strings become `List Char`, fallible calls become `Except`, the
collaborator interfaces (GitLab client, scanner, parser, classifier,
report generator) become records of Lean functions, and the concurrent
phases of the orchestrator are modelled by their sequential result
semantics (the claims under check only concern final values, which the
per-aggregate locks in the Go code make order-insensitive).
-/

/-- Go strings (byte strings restricted to their rune reading). -/
abbrev Str := List Char

namespace DiMatrix

/- ------------------------------------------------------------------
   Go standard-library string helpers used by the repository
   (package `strings` and `path/filepath`).
   ------------------------------------------------------------------ -/

/-- Model of `strings.HasPrefix(s, pre)`. -/
def hasPrefixStr (s pre : Str) : Bool := pre.isPrefixOf s

/-- Model of `strings.HasSuffix(s, suf)`. -/
def hasSuffixStr (s suf : Str) : Bool := suf.isSuffixOf s

/-- Model of `strings.TrimSuffix(s, suf)`: removes at most one trailing copy of `suf`. -/
def trimSuffixStr (s suf : Str) : Str :=
  if hasSuffixStr s suf then s.take (s.length - suf.length) else s

/-- Model of `strings.TrimPrefix(s, pre)`: removes at most one leading copy of `pre`. -/
def trimPrefixStr (s pre : Str) : Str :=
  if hasPrefixStr s pre then s.drop pre.length else s

/-- Model of `strings.Contains(s, sub)`: substring containment (true for empty `sub`). -/
def strContains (s sub : Str) : Bool :=
  match s with
  | [] => sub.isPrefixOf ([] : Str)
  | _ :: t => sub.isPrefixOf s || strContains t sub

/- ------------------------------------------------------------------
   `path/filepath.Match` (Unix rules, separator '/'), translated from
   the Go standard library.  Go iterates over bytes/runes of the
   pattern; here both pattern and name are rune lists, which agrees
   with Go on all ASCII input (all patterns and names in the claims
   are ASCII).  `none` models `ErrBadPattern`.
   ------------------------------------------------------------------ -/

/-- The scanning loop of Go's `scanChunk`: splits the pattern into the
chunk up to (but excluding) the next top-level `*` and the remainder.
A `\` escapes the next character; `*` inside `[...]` is not special. -/
def scanChunkLoop (inrange : Bool) : Str → Str × Str
  | [] => ([], [])
  | c :: rest =>
    if c = '\\' then
      match rest with
      | d :: rest2 =>
        let r := scanChunkLoop inrange rest2
        (c :: d :: r.1, r.2)
      | [] => ([c], [])
    else if c = '[' then
      let r := scanChunkLoop true rest
      (c :: r.1, r.2)
    else if c = ']' then
      let r := scanChunkLoop false rest
      (c :: r.1, r.2)
    else if c = '*' ∧ ¬ inrange then
      ([], c :: rest)
    else
      let r := scanChunkLoop inrange rest
      (c :: r.1, r.2)

/-- Go's `scanChunk`: strips leading `*`s (recording whether any were
present) and returns `(star, chunk, rest)`. -/
def scanChunk (pat : Str) : Bool × Str × Str :=
  let star := decide (pat.head? = some '*')
  let p := pat.dropWhile (fun c => decide (c = '*'))
  let r := scanChunkLoop false p
  (star, r.1, r.2)

/-- Go's `getEsc`: reads one (possibly `\`-escaped) character of a
character-class body; errors on `-`, `]`, exhaustion, or a class that
would end immediately after it. -/
def getEsc (chunk : Str) : Option (Char × Str) :=
  match chunk with
  | [] => none
  | c :: rest =>
    if c = '-' ∨ c = ']' then none
    else if c = '\\' then
      match rest with
      | [] => none
      | r :: rest2 => if rest2 = [] then none else some (r, rest2)
    else if rest = [] then none else some (c, rest)

/-- The range-parsing loop inside Go's `matchChunk` for a `[...]`
class: accumulates whether any `lo-hi` range matched rune `r`.
`fuel` bounds the iteration (each step consumes pattern characters);
it is always called with `chunk.length + 1`. -/
def rangesLoop : Nat → Str → Char → Bool → Nat → Option (Bool × Str)
  | 0, _, _, _, _ => none
  | fuel + 1, chunk, r, matched, nrange =>
    match chunk with
    | ']' :: rest =>
      if nrange > 0 then some (matched, rest) else none
    | _ =>
      match getEsc chunk with
      | none => none
      | some (lo, chunk1) =>
        match chunk1 with
        | '-' :: chunk2 =>
          match getEsc chunk2 with
          | none => none
          | some (hi, chunk3) =>
            rangesLoop fuel chunk3 r
              (matched || (decide (lo ≤ r) && decide (r ≤ hi))) (nrange + 1)
        | _ =>
          rangesLoop fuel chunk1 r
            (matched || (decide (lo ≤ r) && decide (r ≤ lo))) (nrange + 1)

/-- Go's `matchChunk` loop.  Result: `none` = `ErrBadPattern`,
`some none` = no match, `some (some t)` = matched with remainder `t`
of the name.  After a failure the loop keeps checking pattern syntax
without consuming the name, exactly as in Go. -/
def matchChunkLoop : Nat → Str → Str → Bool → Option (Option Str)
  | 0, _, _, _ => none
  | fuel + 1, chunk, s, failed0 =>
    match chunk with
    | [] => if failed0 then some none else some (some s)
    | c :: chunkRest =>
      let failed := if ¬ failed0 ∧ s = [] then true else failed0
      if c = '[' then
        let r := if failed then Char.ofNat 0 else s.headD (Char.ofNat 0)
        let s1 := if failed then s else s.tail
        let negChunk :=
          match chunkRest with
          | '^' :: cr => (true, cr)
          | _ => (false, chunkRest)
        match rangesLoop (negChunk.2.length + 1) negChunk.2 r false 0 with
        | none => none
        | some (m, chunk2) =>
          let failed2 := if m = negChunk.1 then true else failed
          matchChunkLoop fuel chunk2 s1 failed2
      else if c = '?' then
        let failed2 := if failed then true else decide (s.headD (Char.ofNat 0) = '/')
        let s1 := if failed then s else s.tail
        matchChunkLoop fuel chunkRest s1 failed2
      else if c = '\\' then
        match chunkRest with
        | [] => none
        | d :: chunkRest2 =>
          let failed2 := if failed then true else decide (s.headD (Char.ofNat 0) ≠ d)
          let s1 := if failed then s else s.tail
          matchChunkLoop fuel chunkRest2 s1 failed2
      else
        let failed2 := if failed then true else decide (s.headD (Char.ofNat 0) ≠ c)
        let s1 := if failed then s else s.tail
        matchChunkLoop fuel chunkRest s1 failed2

/-- Go's `matchChunk`, with enough fuel for its own chunk. -/
def matchChunk (chunk s : Str) : Option (Option Str) :=
  matchChunkLoop (chunk.length + 1) chunk s false

/-- The star-backtracking loop of Go's `Match`: after a `*`, retry the
chunk at every later position of the name up to the next `/`. -/
def starLoop (chunk rest : Str) : Str → Option (Option Str)
  | [] => some none
  | c :: nameRest =>
    if c = '/' then some none
    else
      match matchChunk chunk nameRest with
      | none => none
      | some (some t) =>
        if rest = [] ∧ t ≠ [] then starLoop chunk rest nameRest
        else some (some t)
      | some none => starLoop chunk rest nameRest

/-- The main loop of Go's `filepath.Match`.  The pattern shrinks at
every iteration, so `pattern.length + 1` fuel always suffices. -/
def goMatchLoop : Nat → Str → Str → Option Bool
  | 0, _, _ => none
  | fuel + 1, pat, name =>
    if pat = [] then some (decide (name = []))
    else
      let scz := scanChunk pat
      let star := scz.1
      let chunk := scz.2.1
      let rest := scz.2.2
      if star ∧ chunk = [] then
        some (! name.contains '/')
      else
        match matchChunk chunk name with
        | none => none
        | some (some t) =>
          if t = [] ∨ rest ≠ [] then goMatchLoop fuel rest t
          else if star then
            match starLoop chunk rest name with
            | none => none
            | some (some t2) => goMatchLoop fuel rest t2
            | some none => some false
          else some false
        | some none =>
          if star then
            match starLoop chunk rest name with
            | none => none
            | some (some t2) => goMatchLoop fuel rest t2
            | some none => some false
          else some false

/-- Model of `filepath.Match(pattern, name)`: `some b` when the call returns
`(b, nil)`, `none` for `ErrBadPattern`. -/
def filepathMatch (pat name : Str) : Option Bool :=
  goMatchLoop (pat.length + 1) pat name

/- ------------------------------------------------------------------
   Domain model (internal/domain/models.go).  `time.Time` stamps are
   modelled as `Nat` ticks; `[]byte` content as `Str`.
   ------------------------------------------------------------------ -/

/-- Structure `domain.Repository`. -/
structure Repository where
  ID : Int
  Name : Str
  URL : Str
  DefaultBranch : Str
  WebURL : Str
deriving DecidableEq

/-- Structure `domain.Dependency`. -/
structure Dependency where
  Name : Str
  Version : Str
  Constraint : Str
  MinVersion : Str
  MaxVersion : Str
  IsInternal : Bool
  Ecosystem : Str
deriving DecidableEq

/-- Structure `domain.DependencyFile`. -/
structure DependencyFile where
  Path : Str
  Language : Str
  Content : Str
  LastModified : Nat
deriving DecidableEq

/-- Structure `domain.Project`. -/
structure Project where
  ID : Str
  Name : Str
  Repository : Repository
  Path : Str
  Language : Str
  DependencyFiles : List DependencyFile
  Dependencies : List Dependency
deriving DecidableEq

/- ------------------------------------------------------------------
   Dependency classifier (internal/classifier/classifier.go).
   A `Classifier` value is just its `internalPatterns` list; the
   unused `context.Context` parameters are dropped.  A nil
   `*domain.Dependency` is `none`.
   ------------------------------------------------------------------ -/

/-- Function `matchesWildcardPattern`: only patterns containing `*` are tried;
a `filepath.Match` error yields `false` (`err == nil && matched`). -/
def matchesWildcardPattern (name pat : Str) : Bool :=
  if ¬ pat.contains '*' then false
  else
    match filepathMatch pat name with
    | some matched => matched
    | none => false

/-- Function `matchesPrefixPattern`: guarded on a trailing `/` or `.`; strips a
trailing `/` and then a trailing `.` before the prefix comparison. -/
def matchesPrefixPattern (name pat : Str) : Bool :=
  if ¬ hasSuffixStr pat (("/").data) ∧ ¬ hasSuffixStr pat ((".").data) then false
  else hasPrefixStr name (trimSuffixStr (trimSuffixStr pat (("/").data)) ((".").data))

/-- Function `matchesSuffixPattern`: guarded on a leading `/` or `.`; strips a
leading `/` and then a leading `.` before the suffix comparison. -/
def matchesSuffixPattern (name pat : Str) : Bool :=
  if ¬ hasPrefixStr pat (("/").data) ∧ ¬ hasPrefixStr pat ((".").data) then false
  else hasSuffixStr name (trimPrefixStr (trimPrefixStr pat (("/").data)) ((".").data))

/-- Function `matchesContainsPattern`: substring containment, only for patterns
without wildcard or anchor characters. -/
def matchesContainsPattern (name pat : Str) : Bool :=
  let hasSpecialChars :=
    pat.contains '*' || hasSuffixStr pat (("/").data) || hasSuffixStr pat ((".").data) ||
      hasPrefixStr pat (("/").data) || hasPrefixStr pat ((".").data)
  ! hasSpecialChars && strContains name pat

/-- Function `matchesPattern`: exact, then wildcard, prefix, suffix, contains. -/
def matchesPattern (name pat : Str) : Bool :=
  if name = pat then true
  else if matchesWildcardPattern name pat then true
  else if matchesPrefixPattern name pat then true
  else if matchesSuffixPattern name pat then true
  else if matchesContainsPattern name pat then true
  else false

/-- Method `(*Classifier).IsInternal`: false for nil or empty-named
dependencies, else true iff any configured pattern matches. -/
def IsInternal (internalPatterns : List Str) (dependency : Option Dependency) : Bool :=
  match dependency with
  | none => false
  | some dep =>
    if dep.Name = [] then false
    else internalPatterns.any (fun pat => matchesPattern dep.Name pat)

/-- The loop body of `ClassifyDependencies`: nil elements are left in
place untouched, non-nil elements get `IsInternal` recomputed. -/
def classifyList (internalPatterns : List Str) :
    List (Option Dependency) → List (Option Dependency)
  | [] => []
  | none :: rest => none :: classifyList internalPatterns rest
  | some dep :: rest =>
    some { dep with IsInternal := IsInternal internalPatterns (some dep) } ::
      classifyList internalPatterns rest

/-- Method `(*Classifier).ClassifyDependencies`: nil slice goes to nil slice;
otherwise every record's internal flag is set in place and the same
slice is returned.  The Go error result is always nil and is omitted. -/
def ClassifyDependencies (internalPatterns : List Str) :
    Option (List (Option Dependency)) → Option (List (Option Dependency))
  | none => none
  | some deps => some (classifyList internalPatterns deps)

/- ------------------------------------------------------------------
   Classification rules as the specification words them (§4.3).
   These definitions are deliberately written from the spec text, to
   be compared with the code-derived `matchesPattern` above.
   ------------------------------------------------------------------ -/

/-- Modelled from the spec: rule (b), "glob-style wildcard match if
the pattern contains `*`" (the glob dialect is the one the code links
against, `filepath.Match`). -/
def specWildcardRule (name pat : Str) : Bool :=
  pat.contains '*' &&
    (match filepathMatch pat name with
     | some matched => matched
     | none => false)

/-- Modelled from the spec: the "(trailing separator stripped before
comparison)" parenthetical of rule (c), read literally: exactly the
one trailing separator character is removed. -/
def specStripTrailingSeparator (pat : Str) : Str :=
  if hasSuffixStr pat (("/").data) then trimSuffixStr pat (("/").data)
  else trimSuffixStr pat ((".").data)

/-- Modelled from the spec: rule (c), "prefix match if the pattern
ends in `/` or `.`  (trailing separator stripped before comparison)". -/
def specPrefixRule (name pat : Str) : Bool :=
  (hasSuffixStr pat (("/").data) || hasSuffixStr pat ((".").data)) &&
    hasPrefixStr name (specStripTrailingSeparator pat)

/-- Modelled from the spec: the "(leading separator stripped)"
parenthetical of rule (d), read literally: exactly one character. -/
def specStripLeadingSeparator (pat : Str) : Str :=
  if hasPrefixStr pat (("/").data) then trimPrefixStr pat (("/").data)
  else trimPrefixStr pat ((".").data)

/-- Modelled from the spec: rule (d), "suffix match if the pattern
begins with `/` or `.`  (leading separator stripped)". -/
def specSuffixRule (name pat : Str) : Bool :=
  (hasPrefixStr pat (("/").data) || hasPrefixStr pat ((".").data)) &&
    hasSuffixStr name (specStripLeadingSeparator pat)

/-- Modelled from the spec: rule (e), substring containment "only for
patterns containing none of the special characters used by (b)–(d)",
read positionally per the spec's own rationale (a wildcard anywhere,
an anchor separator at either end). -/
def specContainsRule (name pat : Str) : Bool :=
  !(pat.contains '*' || hasSuffixStr pat (("/").data) || hasSuffixStr pat ((".").data) ||
      hasPrefixStr pat (("/").data) || hasPrefixStr pat ((".").data)) &&
    strContains name pat

/-- Modelled from the spec: one pattern matches a name when any of
rules (a)–(e) applies, with the strip parentheticals read literally. -/
def specMatchesPatternLiteral (name pat : Str) : Bool :=
  decide (name = pat) || specWildcardRule name pat || specPrefixRule name pat ||
    specSuffixRule name pat || specContainsRule name pat

/-- Modelled from the spec: `IsInternal` per §4.3 with the literal
strip reading; empty name or empty ruleset always yields false. -/
def specIsInternalLiteral (internalPatterns : List Str) (name : Str) : Bool :=
  if name = [] ∨ internalPatterns = [] then false
  else internalPatterns.any (fun pat => specMatchesPatternLiteral name pat)

/-- The amended rule (c)+(d): as the code does, a trailing (leading)
`/` is stripped and then a trailing (leading) `.` is stripped, so a
pattern ending in `./` loses both characters. -/
def specMatchesPatternAmended (name pat : Str) : Bool :=
  decide (name = pat) || specWildcardRule name pat ||
    ((hasSuffixStr pat (("/").data) || hasSuffixStr pat ((".").data)) &&
      hasPrefixStr name (trimSuffixStr (trimSuffixStr pat (("/").data)) ((".").data))) ||
    ((hasPrefixStr pat (("/").data) || hasPrefixStr pat ((".").data)) &&
      hasSuffixStr name (trimPrefixStr (trimPrefixStr pat (("/").data)) ((".").data))) ||
    specContainsRule name pat

/-- Function `IsInternal` as the amended spec describes it. -/
def specIsInternalAmended (internalPatterns : List Str) (name : Str) : Bool :=
  if name = [] ∨ internalPatterns = [] then false
  else internalPatterns.any (fun pat => specMatchesPatternAmended name pat)

/- ------------------------------------------------------------------
   More `path/filepath` helpers used by the scanner: `Clean`, `Dir`,
   `Base` (Unix, no volume names).  `Clean` is modelled by its
   component semantics: split on `/`, drop empty and `.` components,
   resolve `..`, re-join; this is exactly what the lazybuf loop in the
   Go source computes.
   ------------------------------------------------------------------ -/

/-- Model of `strings.Split(s, "/")`. -/
def splitOnSlash : Str → List Str
  | [] => [[]]
  | c :: rest =>
    let r := splitOnSlash rest
    if c = '/' then [] :: r
    else
      match r with
      | [] => [[c]]
      | h :: t => (c :: h) :: t

/-- Join path components with `/`. -/
def joinSlash : List Str → Str
  | [] => []
  | [s] => s
  | s :: rest => s ++ '/' :: joinSlash rest

/-- One step of `Clean`'s element processing: empty and `.` components
vanish; `..` pops a non-`..` stack entry, vanishes at the root of a
rooted path, and is kept otherwise.  The stack is in reverse order. -/
def cleanPush (rooted : Bool) (stack : List Str) (comp : Str) : List Str :=
  if comp = [] ∨ comp = ['.'] then stack
  else if comp = ['.', '.'] then
    match stack with
    | top :: rest => if top = ['.', '.'] then comp :: stack else rest
    | [] => if rooted then [] else [comp]
  else comp :: stack

/-- Model of `filepath.Clean` (Unix). -/
def Clean (path : Str) : Str :=
  if path = [] then ['.']
  else
    let rooted := decide (path.head? = some '/')
    let stack := (splitOnSlash path).foldl (cleanPush rooted) []
    let joined := joinSlash stack.reverse
    let result := if rooted then '/' :: joined else joined
    if result = [] then ['.'] else result

/-- Model of `filepath.Dir`: `Clean` of everything up to and including the last
separator (the empty string, hence `.`, when there is none). -/
def Dir (path : Str) : Str :=
  Clean ((path.reverse.dropWhile (fun c => decide (c ≠ '/'))).reverse)

/-- Model of `filepath.Base`: last element after trailing separators are
removed; `.` for the empty path, `/` for all-separator paths. -/
def Base (path : Str) : Str :=
  if path = [] then ['.']
  else
    let p := path.reverse.dropWhile (fun c => decide (c = '/'))
    let b := p.takeWhile (fun c => decide (c ≠ '/'))
    if b = [] then ['/'] else b.reverse

/-- ASCII case folding; models `strings.ToLower` on the ASCII
filenames and language tags this system compares (the Go function
additionally folds non-ASCII runes, which never occur here). -/
def toLowerChar (c : Char) : Char :=
  if 'A' ≤ c ∧ c ≤ 'Z' then Char.ofNat (c.toNat + 32) else c

/-- ASCII counterpart of `unicode.ToUpper` for the same reason. -/
def toUpperChar (c : Char) : Char :=
  if 'a' ≤ c ∧ c ≤ 'z' then Char.ofNat (c.toNat - 32) else c

/- ------------------------------------------------------------------
   Project scanner (internal/scanner/scanner.go).  The GitLab client
   collaborator and the fetch-time clock are a `ScanEnv`; logging is
   dropped.
   ------------------------------------------------------------------ -/

/-- The GitLab-client collaborator as the scanner consumes it. -/
structure ScanEnv where
  GetFilesList : Str → Except Str (List Str)
  GetFileContent : Str → Str → Except Str Str
  now : Nat

/-- Function `CapitalizeFirst`. -/
def CapitalizeFirst (s : Str) : Str :=
  match s with
  | [] => []
  | c :: rest => toUpperChar c :: rest

/-- Method `(*Scanner).SupportedFileTypes` (note the capital-P `Pipfile`). -/
def SupportedFileTypes : List Str :=
  [("go.mod").data, ("go.sum").data,
   ("package.json").data, ("package-lock.json").data, ("yarn.lock").data,
   ("pom.xml").data, ("build.gradle").data, ("gradle.lockfile").data,
   ("requirements.txt").data, ("Pipfile").data, ("poetry.lock").data,
   ("uv.lock").data, ("setup.py").data]

/-- Function `filterDependencyFiles`: keep files whose base filename is in the
supported set (the Go map is just an O(1) membership test). -/
def filterDependencyFiles (files : List Str) : List Str :=
  files.filter (fun file => decide (Base file ∈ SupportedFileTypes))

/-- Function `DetectLanguageFromFile`: switch on the lower-cased base name. -/
def DetectLanguageFromFile (filePath : Str) : Str :=
  let fileName := (Base filePath).map toLowerChar
  if fileName = ("go.mod").data ∨ fileName = ("go.sum").data then ("go").data
  else if fileName = ("package.json").data ∨ fileName = ("package-lock.json").data ∨
      fileName = ("yarn.lock").data then ("nodejs").data
  else if fileName = ("pom.xml").data ∨ fileName = ("build.gradle").data ∨
      fileName = ("gradle.lockfile").data then ("java").data
  else if fileName = ("requirements.txt").data ∨ fileName = ("pipfile").data ∨
      fileName = ("poetry.lock").data ∨ fileName = ("uv.lock").data ∨
      fileName = ("setup.py").data then ("python").data
  else ("unknown").data

/-- Function `ExtractProjectPath`: directory of the file, `""` for the root. -/
def ExtractProjectPath (filePath : Str) : Str :=
  let dir := Dir filePath
  if dir = ['.'] ∨ dir = ['/'] then [] else dir

/-- Structure `dependencyFileGroup`. -/
structure DependencyFileGroup where
  language : Str
  path : Str
  files : List Str
deriving DecidableEq

/-- The grouping key of `groupDependencyFilesByProject`.  The Go code
keys its map by the string `language + ":" + path`; since no detected
language contains `:`, that string key and this pair are in bijection. -/
def groupKey (file : Str) : Str × Str :=
  (DetectLanguageFromFile file, ExtractProjectPath file)

/-- Keys in order of first occurrence (the group *contents* below are
deterministic in the Go code; only the map iteration order is not, and
first-occurrence order is the fixed representative used here). -/
def keysIn : List (Str × Str) → List (Str × Str)
  | [] => []
  | k :: ks => k :: (keysIn ks).filter (fun j => decide (j ≠ k))

/-- Function `groupDependencyFilesByProject`: one group per distinct
(language, path) key, holding the input files with that key in input
order — exactly how the Go loop appends into its map. -/
def groupDependencyFilesByProject (dependencyFiles : List Str) : List DependencyFileGroup :=
  (keysIn (dependencyFiles.map groupKey)).map (fun k =>
    { language := k.1, path := k.2,
      files := dependencyFiles.filter (fun file => decide (groupKey file = k)) })

/-- Decimal rendering of a Go `int` (`fmt.Sprintf("%d", i)`). -/
def intToStr (i : Int) : Str :=
  if i < 0 then '-' :: Nat.toDigits 10 (- i).toNat else Nat.toDigits 10 i.toNat

/-- Function `createProjectFromGroup`.  The Go function's error result is
always nil; a per-file fetch failure merely skips that file.  The
`LastModified` stamp is the fetch-time clock (`time.Now()`). -/
def createProjectFromGroup (env : ScanEnv) (repo : Repository)
    (group : DependencyFileGroup) : Project :=
  let projectID :=
    if group.path = [] then
      ("repo-").data ++ intToStr repo.ID ++ ("-root-").data ++ group.language
    else
      ("repo-").data ++ intToStr repo.ID ++ ("-").data ++ group.path ++
        ("-").data ++ group.language
  let projectName :=
    if group.path = [] then
      repo.Name ++ (" ").data ++ CapitalizeFirst group.language
    else
      repo.Name ++ (" ").data ++ CapitalizeFirst group.language ++
        (" (").data ++ group.path ++ (")").data
  let dependencyFiles := group.files.filterMap (fun file =>
    match env.GetFileContent repo.URL file with
    | .error _ => none
    | .ok content =>
      some { Path := file, Language := group.language, Content := content,
             LastModified := env.now })
  { ID := projectID, Name := projectName, Repository := repo, Path := group.path,
    Language := group.language, DependencyFiles := dependencyFiles, Dependencies := [] }

/-- Method `(*Scanner).DetectProjects`: a file-listing failure is returned
wrapped; after a successful listing no error can escape — groups whose
projects end up with zero fetched files are dropped. -/
def DetectProjects (env : ScanEnv) (repo : Repository) : Except Str (List Project) :=
  match env.GetFilesList repo.URL with
  | .error e =>
    .error (("failed to get files list for repository ").data ++ repo.Name ++
      (": ").data ++ e)
  | .ok files =>
    let dependencyFiles := filterDependencyFiles files
    if dependencyFiles = [] then .ok []
    else
      .ok ((groupDependencyFilesByProject dependencyFiles).filterMap (fun group =>
        let project := createProjectFromGroup env repo group
        if project.DependencyFiles.length > 0 then some project else none))

/- ------------------------------------------------------------------
   Analysis orchestrator (internal/usecases/analyze.go).  The five
   collaborators of `AnalyzeUseCase` are an `Env` of functions.  Each
   phase's goroutines only append to a lock-guarded aggregate or add
   to lock-guarded counters, so the final values are those of the
   sequential left-to-right evaluation modelled here; only the order
   of the intermediate lists is scheduling-dependent, and first-error
   selection from the error channel is modelled as first in input
   order.
   ------------------------------------------------------------------ -/

/-- Structure `AnalyzeResponse` (the `AnalysisResult` of the spec). -/
structure AnalyzeResponse where
  TotalProjects : Nat
  TotalDependencies : Nat
  InternalCount : Nat
  ExternalCount : Nat
deriving DecidableEq

/-- The collaborators injected into `AnalyzeUseCase`, as used by
`Execute`: repository resolution, project detection, file parsing,
single-dependency classification and HTML report generation. -/
structure Env where
  GetRepositoriesList : Str → Except Str (List Repository)
  DetectProjects : Repository → Except Str (List Project)
  ParseFile : DependencyFile → Except Str (List Dependency)
  IsInternal : Dependency → Bool
  GenerateHTML : List Project → Except Str Unit

/-- Step 1 of `Execute`: resolve every source URL; all results are
concatenated, and any error makes the whole phase (and call) fail. -/
def resolveRepositories (env : Env) : List Str → Except Str (List Repository)
  | [] => .ok []
  | url :: rest =>
    match env.GetRepositoriesList url with
    | .error e => .error e
    | .ok repos =>
      match resolveRepositories env rest with
      | .error e => .error e
      | .ok more => .ok (repos ++ more)

/-- Step 2 of `Execute`: scan every repository; a scan failure is
logged and that repository contributes zero projects. -/
def detectAllProjects (env : Env) : List Repository → List Project
  | [] => []
  | repo :: rest =>
    (match env.DetectProjects repo with
     | .error _ => []
     | .ok projects => projects) ++ detectAllProjects env rest

/-- The classified list and the two counters produced for one parsed
file's dependency list. -/
structure ClassifyResult where
  deps : List Dependency
  internalCount : Nat
  externalCount : Nat
deriving DecidableEq

/-- Function `classifyDependenciesConcurrently`: every dependency's flag is set
from the classifier and counted exactly once.  The Go function has an
empty-list early return, a sequential branch for lists of at most 10
and a fan-out branch beyond that; all three produce exactly this list
and these counters, differing only in scheduling. -/
def classifyDependenciesConcurrently (env : Env) :
    List Dependency → ClassifyResult
  | [] => { deps := [], internalCount := 0, externalCount := 0 }
  | dep :: rest =>
    let isInt := env.IsInternal dep
    let r := classifyDependenciesConcurrently env rest
    { deps := { dep with IsInternal := isInt } :: r.deps,
      internalCount := if isInt then r.internalCount + 1 else r.internalCount,
      externalCount := if isInt then r.externalCount else r.externalCount + 1 }

/-- The per-file worker-pool loop of `processProject`: a parse failure
is recorded and the file skipped; successes contribute their
classified dependencies and counters. -/
def processProjectFiles (env : Env) : List DependencyFile → ClassifyResult
  | [] => { deps := [], internalCount := 0, externalCount := 0 }
  | file :: rest =>
    let r := processProjectFiles env rest
    match env.ParseFile file with
    | .error _ => r
    | .ok deps =>
      let c := classifyDependenciesConcurrently env deps
      { deps := c.deps ++ r.deps,
        internalCount := c.internalCount + r.internalCount,
        externalCount := c.externalCount + r.externalCount }

/-- What `processProject` leaves behind: the project now carrying its
parsed+classified dependencies, and the three per-project counters it
returns (its Go error result is always nil). -/
structure ProjResult where
  project : Project
  depsCount : Nat
  internalCount : Nat
  externalCount : Nat
deriving DecidableEq

/-- Function `processProject`. -/
def processProject (env : Env) (p : Project) : ProjResult :=
  let r := processProjectFiles env p.DependencyFiles
  { project := { p with Dependencies := r.deps },
    depsCount := r.deps.length,
    internalCount := r.internalCount,
    externalCount := r.externalCount }

/-- The aggregate of `processProjectsConcurrently`: the mutated
project list and the three orchestrator-level counters. -/
structure ProcTotals where
  projects : List Project
  totalDependencies : Nat
  internalCount : Nat
  externalCount : Nat
deriving DecidableEq

/-- Function `processProjectsConcurrently`: every project is processed (the
per-project error slice stays empty because `processProject` never
fails) and the counters are summed under the shared lock; the function
itself always returns a nil error. -/
def processProjectsConcurrently (env : Env) : List Project → ProcTotals
  | [] => { projects := [], totalDependencies := 0, internalCount := 0, externalCount := 0 }
  | p :: rest =>
    let pr := processProject env p
    let r := processProjectsConcurrently env rest
    { projects := pr.project :: r.projects,
      totalDependencies := pr.depsCount + r.totalDependencies,
      internalCount := pr.internalCount + r.internalCount,
      externalCount := pr.externalCount + r.externalCount }

/-- Method `(*AnalyzeUseCase).Execute`: resolve (fail-fast), scan
(fail-soft), process (never fails), generate the report (fail-fast),
then assemble the counters.  `TotalProjects` is the length of the
full detected project list, which processing preserves. -/
def Execute (env : Env) (repositoryURLs : List Str) : Except Str AnalyzeResponse :=
  match resolveRepositories env repositoryURLs with
  | .error e => .error e
  | .ok repositories =>
    let allProjects := detectAllProjects env repositories
    let t := processProjectsConcurrently env allProjects
    match env.GenerateHTML t.projects with
    | .error e => .error e
    | .ok _ =>
      .ok { TotalProjects := allProjects.length,
            TotalDependencies := t.totalDependencies,
            InternalCount := t.internalCount,
            ExternalCount := t.externalCount }

/- ------------------------------------------------------------------
   Concrete fixtures: small collaborator instances and records used to
   instantiate the general theorems on concrete runs.
   ------------------------------------------------------------------ -/

/-- Whether an `Except` value is a success. -/
def exceptOk {ε α : Type _} : Except ε α → Bool
  | .ok _ => true
  | .error _ => false

/-- A dependency record that only carries a name. -/
def depNamed (s : Str) : Dependency :=
  { Name := s, Version := [], Constraint := [], MinVersion := [], MaxVersion := [],
    IsInternal := false, Ecosystem := [] }

/-- The name the classifier counterexample classifies. -/
def depCompanyX : Dependency := depNamed (("companyX").data)

def repoC2 : Repository :=
  { ID := 1, Name := ("repo").data, URL := ("https://gitlab.example/r").data,
    DefaultBranch := ("main").data, WebURL := ("w").data }

def fileC2 : DependencyFile :=
  { Path := ("go.mod").data, Language := ("go").data, Content := ("m").data,
    LastModified := 0 }

def projC2 : Project :=
  { ID := ("p1").data, Name := ("P").data, Repository := repoC2, Path := [],
    Language := ("go").data, DependencyFiles := [fileC2], Dependencies := [] }

/-- One URL resolving to one repository holding one one-file project
whose file parses into one internal and one external dependency. -/
def envC2 : Env :=
  { GetRepositoriesList := fun _ => .ok [repoC2],
    DetectProjects := fun _ => .ok [projC2],
    ParseFile := fun _ => .ok [depNamed (("a").data), depNamed (("b").data)],
    IsInternal := fun d => decide (d.Name = ("a").data),
    GenerateHTML := fun _ => .ok () }

/-- A resolution collaborator that fails with a message that does not
mention any URL. -/
def envErr : Env :=
  { GetRepositoriesList := fun _ => .error (("mock failure").data),
    DetectProjects := fun _ => .ok [],
    ParseFile := fun _ => .ok [],
    IsInternal := fun _ => false,
    GenerateHTML := fun _ => .ok () }

def repoA : Repository :=
  { ID := 1, Name := ("A").data, URL := ("uA").data,
    DefaultBranch := ("main").data, WebURL := ("w").data }

def repoB : Repository :=
  { ID := 2, Name := ("B").data, URL := ("uB").data,
    DefaultBranch := ("main").data, WebURL := ("w").data }

def repoC : Repository :=
  { ID := 3, Name := ("C").data, URL := ("uC").data,
    DefaultBranch := ("main").data, WebURL := ("w").data }

/-- A trivial detected project for one repository. -/
def projOf (r : Repository) : Project :=
  { ID := ("p-").data ++ r.Name, Name := r.Name, Repository := r, Path := [],
    Language := ("go").data, DependencyFiles := [], Dependencies := [] }

/-- Three repositories, the scanner failing on the middle one. -/
def envC4 : Env :=
  { GetRepositoriesList := fun _ => .ok [repoA, repoB, repoC],
    DetectProjects := fun repo =>
      if repo.Name = ("B").data then .error (("scan failed").data)
      else .ok [projOf repo],
    ParseFile := fun _ => .ok [],
    IsInternal := fun _ => false,
    GenerateHTML := fun _ => .ok () }

def repoC5 : Repository :=
  { ID := 2, Name := ("repo5").data, URL := ("u5").data,
    DefaultBranch := ("main").data, WebURL := ("w").data }

/-- A GitLab client whose file listing fails. -/
def envC5a : ScanEnv :=
  { GetFilesList := fun _ => .error (("boom").data),
    GetFileContent := fun _ _ => .ok [], now := 0 }

/-- A GitLab client whose listing succeeds but where one file's
content fetch fails. -/
def envC5b : ScanEnv :=
  { GetFilesList := fun _ => .ok [("go.mod").data, ("backend/go.mod").data],
    GetFileContent := fun _ file =>
      if file = ("go.mod").data then .error (("not found").data)
      else .ok (("c").data),
    now := 0 }

def repoC7 : Repository :=
  { ID := 7, Name := ("mono").data, URL := ("u7").data,
    DefaultBranch := ("main").data, WebURL := ("w").data }

/-- A monorepo listing: one root `go.mod`, one `backend/package.json`,
all contents fetchable. -/
def envC7 : ScanEnv :=
  { GetFilesList := fun _ => .ok [("go.mod").data, ("backend/package.json").data],
    GetFileContent := fun _ _ => .ok (("content").data), now := 3 }

/-- The root Go project `DetectProjects` yields for `envC7`. -/
def projC7go : Project :=
  { ID := ("repo-7-root-go").data, Name := ("mono Go").data, Repository := repoC7,
    Path := [], Language := ("go").data,
    DependencyFiles := [{ Path := ("go.mod").data, Language := ("go").data,
                          Content := ("content").data, LastModified := 3 }],
    Dependencies := [] }

/-- The backend Node.js project `DetectProjects` yields for `envC7`. -/
def projC7node : Project :=
  { ID := ("repo-7-backend-nodejs").data, Name := ("mono Nodejs (backend)").data,
    Repository := repoC7, Path := ("backend").data, Language := ("nodejs").data,
    DependencyFiles := [{ Path := ("backend/package.json").data,
                          Language := ("nodejs").data,
                          Content := ("content").data, LastModified := 3 }],
    Dependencies := [] }

def repoC10 : Repository :=
  { ID := 9, Name := ("pyrepo").data, URL := ("u9").data,
    DefaultBranch := ("main").data, WebURL := ("w").data }

/-- A repository whose only manifest is a root `Pipfile`. -/
def envC10 : ScanEnv :=
  { GetFilesList := fun _ => .ok [("Pipfile").data],
    GetFileContent := fun _ _ => .ok (("c").data), now := 0 }

/-- The Python project `DetectProjects` yields for `envC10`. -/
def projC10 : Project :=
  { ID := ("repo-9-root-python").data, Name := ("pyrepo Python").data,
    Repository := repoC10, Path := [], Language := ("python").data,
    DependencyFiles := [{ Path := ("Pipfile").data, Language := ("python").data,
                          Content := ("c").data, LastModified := 0 }],
    Dependencies := [] }

/- ==================================================================
   Theorems.
   ================================================================== -/

/-- The wildcard branch of the code equals spec rule (b). -/
theorem matchesWildcard_eq_rule (name pat : Str) :
    matchesWildcardPattern name pat = specWildcardRule name pat := by
  unfold matchesWildcardPattern specWildcardRule
  cases hc : pat.contains '*' <;> simp [hc]

/-- The code's prefix branch equals the amended rule (c) clause. -/
theorem matchesPrefixP_eq_rule (name pat : Str) :
    matchesPrefixPattern name pat =
      ((hasSuffixStr pat (("/").data) || hasSuffixStr pat ((".").data)) &&
        hasPrefixStr name (trimSuffixStr (trimSuffixStr pat (("/").data)) ((".").data))) := by
  unfold matchesPrefixPattern
  cases ha : hasSuffixStr pat (("/").data) <;>
    cases hb : hasSuffixStr pat ((".").data) <;> simp [ha, hb]

/-- The code's suffix branch equals the amended rule (d) clause. -/
theorem matchesSuffixP_eq_rule (name pat : Str) :
    matchesSuffixPattern name pat =
      ((hasPrefixStr pat (("/").data) || hasPrefixStr pat ((".").data)) &&
        hasSuffixStr name (trimPrefixStr (trimPrefixStr pat (("/").data)) ((".").data))) := by
  unfold matchesSuffixPattern
  cases ha : hasPrefixStr pat (("/").data) <;>
    cases hb : hasPrefixStr pat ((".").data) <;> simp [ha, hb]

/-- The code's containment branch equals spec rule (e). -/
theorem matchesContains_eq_rule (name pat : Str) :
    matchesContainsPattern name pat = specContainsRule name pat := rfl

/-- Per pattern, the code's match chain equals the amended rules. -/
theorem matchesPattern_eq_amended (name pat : Str) :
    matchesPattern name pat = specMatchesPatternAmended name pat := by
  unfold matchesPattern specMatchesPatternAmended
  rw [matchesWildcard_eq_rule, matchesPrefixP_eq_rule, matchesSuffixP_eq_rule,
    matchesContains_eq_rule]
  by_cases h1 : name = pat
  · simp [h1]
  · simp only [if_neg h1, decide_eq_true_eq]
    cases specWildcardRule name pat <;>
      cases (hasSuffixStr pat (("/").data) || hasSuffixStr pat ((".").data)) &&
        hasPrefixStr name (trimSuffixStr (trimSuffixStr pat (("/").data)) ((".").data)) <;>
      cases (hasPrefixStr pat (("/").data) || hasPrefixStr pat ((".").data)) &&
        hasSuffixStr name (trimPrefixStr (trimPrefixStr pat (("/").data)) ((".").data)) <;>
      cases specContainsRule name pat <;> simp [h1]

/-- C1 (amended).  `IsInternal` returns true iff some configured
pattern matches the name under the spec's per-pattern rules (a)–(e),
with the rule (c)/(d) parentheticals amended to the code's behaviour:
a trailing (leading) `/` is stripped and then a trailing (leading)
`.` is stripped, rather than a single trailing (leading) separator.
The literal pattern scenarios of the spec all hold as stated. -/
theorem c1_isInternal_matches_amended_rules :
    (∀ (internalPatterns : List Str) (dep : Dependency),
        IsInternal internalPatterns (some dep) =
          specIsInternalAmended internalPatterns dep.Name) ∧
    matchesPattern (("github.com/company/user-service").data) (("github.com/company/*").data) = true ∧
    matchesPattern (("github.com/gin-gonic/gin").data) (("github.com/company/*").data) = false ∧
    matchesPattern (("@company/ui-components").data) (("@company/").data) = true ∧
    matchesPattern (("@angular/core").data) (("@company/").data) = false ∧
    matchesPattern (("company-utils").data) (("company-").data) = true ∧
    matchesPattern (("my-company-utils").data) (("company-").data) = true := by
  refine ⟨?_, by decide, by decide, by decide, by decide, by decide, by decide⟩
  intro internalPatterns dep
  unfold IsInternal specIsInternalAmended
  by_cases hn : dep.Name = []
  · simp [hn]
  · cases internalPatterns with
    | nil => simp [hn]
    | cons p ps =>
      simp only [hn, false_or, if_neg, List.cons_ne_nil, or_false, if_false]
      simp [matchesPattern_eq_amended]

/-- C1 counterexample to the claim as stated: for the pattern
`"company./"` (which ends in `./`) the code strips both trailing
characters and prefix-matches `"companyX"` with `"company"`, while
the spec's literal "(trailing separator stripped)" reading strips only
the `/` and does not match. -/
theorem c1_matchesPattern_literal_spec_counterexample :
    IsInternal [(("company./").data)] (some depCompanyX) = true ∧
    specIsInternalLiteral [(("company./").data)] (("companyX").data) = false := by
  exact ⟨by decide, by decide⟩

/-- The classifier never reads the flag it writes. -/
theorem isInternal_ignores_flag (internalPatterns : List Str) (d : Dependency) (b : Bool) :
    IsInternal internalPatterns (some { d with IsInternal := b }) =
      IsInternal internalPatterns (some d) := rfl

/-- The classification loop is an independent element-wise map. -/
theorem classifyList_eq_map (internalPatterns : List Str) (l : List (Option Dependency)) :
    classifyList internalPatterns l =
      l.map (fun od => od.map (fun d =>
        { d with IsInternal := IsInternal internalPatterns (some d) })) := by
  induction l with
  | nil => rfl
  | cons od rest ih => cases od <;> simp [classifyList, ih]

/-- C8.  `IsInternal` is pure: the flag a previous classification
wrote never influences a later one (third conjunct), classification of
a list is the independent element-wise classification (second
conjunct), and re-running `ClassifyDependencies` on its own output
reproduces the same internal/external split (first conjunct). -/
theorem c8_classifier_pure_idempotent :
    (∀ (internalPatterns : List Str) (l : Option (List (Option Dependency))),
        ClassifyDependencies internalPatterns (ClassifyDependencies internalPatterns l) =
          ClassifyDependencies internalPatterns l) ∧
    (∀ (internalPatterns : List Str) (l : List (Option Dependency)),
        ClassifyDependencies internalPatterns (some l) =
          some (l.map (fun od => od.map (fun d =>
            { d with IsInternal := IsInternal internalPatterns (some d) })))) ∧
    (∀ (internalPatterns : List Str) (d : Dependency) (b : Bool),
        IsInternal internalPatterns (some { d with IsInternal := b }) =
          IsInternal internalPatterns (some d)) := by
  refine ⟨?_, ?_, fun pats d b => isInternal_ignores_flag pats d b⟩
  · intro pats l
    cases l with
    | none => rfl
    | some deps =>
      simp only [ClassifyDependencies, Option.some.injEq]
      induction deps with
      | nil => rfl
      | cons od rest ih =>
        cases od with
        | none => simp [classifyList, ih]
        | some d => simp [classifyList, ih, isInternal_ignores_flag]
  · intro pats l
    simp [ClassifyDependencies, classifyList_eq_map]

/-- C9.  `IsInternal` is false on an empty dependency name and on an
empty ruleset; `ClassifyDependencies` maps a nil slice to a nil slice,
leaves nil elements in place untouched, and returns the input
collection with only each non-nil record's internal flag rewritten. -/
theorem c9_classifier_nil_and_empty :
    (∀ (internalPatterns : List Str) (d : Dependency),
        d.Name = [] → IsInternal internalPatterns (some d) = false) ∧
    (∀ dep : Option Dependency, IsInternal [] dep = false) ∧
    (∀ internalPatterns : List Str, ClassifyDependencies internalPatterns none = none) ∧
    (∀ (internalPatterns : List Str) (l : List (Option Dependency)),
        ClassifyDependencies internalPatterns (some l) =
          some (l.map (fun od => od.map (fun d =>
            { d with IsInternal := IsInternal internalPatterns (some d) })))) := by
  refine ⟨?_, ?_, fun _ => rfl, ?_⟩
  · intro pats d h
    simp [IsInternal, h]
  · intro dep
    cases dep <;> simp [IsInternal]
  · intro pats l
    simp [ClassifyDependencies, classifyList_eq_map]

/-- C9 instantiated on concrete inputs. -/
theorem c9_classifier_nil_and_empty_witness :
    IsInternal [(("a").data)] (some (depNamed [])) = false ∧
    IsInternal [] (some (depNamed (("x").data))) = false ∧
    ClassifyDependencies [(("a").data)] none = none :=
  ⟨c9_classifier_nil_and_empty.1 [(("a").data)] (depNamed []) rfl,
   c9_classifier_nil_and_empty.2.1 (some (depNamed (("x").data))),
   c9_classifier_nil_and_empty.2.2.1 [(("a").data)]⟩

/-- First-occurrence keys contain no duplicates. -/
theorem keysIn_nodup (l : List (Str × Str)) : (keysIn l).Nodup := by
  induction l with
  | nil => simp [keysIn]
  | cons k ks ih =>
    simp only [keysIn, List.nodup_cons]
    constructor
    · intro hmem
      have := List.of_mem_filter hmem
      simp at this
    · exact List.Nodup.filter _ ih

/-- Every key of the input occurs among the first-occurrence keys. -/
theorem mem_keysIn_of_mem {l : List (Str × Str)} {k : Str × Str}
    (h : k ∈ l) : k ∈ keysIn l := by
  induction l with
  | nil => cases h
  | cons j js ih =>
    rcases List.mem_cons.mp h with rfl | h2
    · simp [keysIn]
    · by_cases hk : k = j
      · subst hk; simp [keysIn]
      · simp only [keysIn, List.mem_cons]
        refine Or.inr (List.mem_filter.mpr ⟨ih h2, by simp [hk]⟩)

/-- First-occurrence keys are a subset of the input keys. -/
theorem mem_of_mem_keysIn {l : List (Str × Str)} {k : Str × Str}
    (h : k ∈ keysIn l) : k ∈ l := by
  induction l with
  | nil => cases h
  | cons j js ih =>
    simp only [keysIn, List.mem_cons] at h
    rcases h with rfl | h2
    · simp
    · exact List.mem_cons_of_mem _ (ih (List.mem_of_mem_filter h2))

/-- Bucketing a list by a duplicate-free covering key list and joining
the buckets permutes the original list. -/
theorem bucket_join_perm (ks : List (Str × Str)) (files : List Str)
    (hnd : ks.Nodup) (hcov : ∀ f ∈ files, groupKey f ∈ ks) :
    ((ks.map (fun k => files.filter (fun f => decide (groupKey f = k)))).flatten).Perm
      files := by
  induction ks generalizing files with
  | nil =>
    have : files = [] := by
      cases files with
      | nil => rfl
      | cons f t => exact absurd (hcov f (by simp)) (by simp)
    subst this
    simp
  | cons k ks ih =>
    simp only [List.map_cons, List.flatten_cons]
    have hknot : k ∉ ks := (List.nodup_cons.mp hnd).1
    have hnd' : ks.Nodup := (List.nodup_cons.mp hnd).2
    have hrewrite : ∀ j ∈ ks,
        files.filter (fun f => decide (groupKey f = j)) =
          (files.filter (fun f => ! decide (groupKey f = k))).filter
            (fun f => decide (groupKey f = j)) := by
      intro j hj
      rw [List.filter_filter]
      apply List.filter_congr
      intro f _
      by_cases hf : groupKey f = j
      · have hjk : ¬ j = k := fun hh => hknot (hh ▸ hj)
        have hne : ¬ groupKey f = k := fun hh => hjk (hf ▸ hh)
        simp [hf, hne, hjk]
      · simp [hf]
    have hmap : ks.map (fun j => files.filter (fun f => decide (groupKey f = j))) =
        ks.map (fun j => (files.filter (fun f => ! decide (groupKey f = k))).filter
          (fun f => decide (groupKey f = j))) := List.map_congr_left hrewrite
    rw [hmap]
    have hcov' : ∀ f ∈ files.filter (fun f => ! decide (groupKey f = k)),
        groupKey f ∈ ks := by
      intro f hf
      have hmem := List.mem_of_mem_filter hf
      have hne := List.of_mem_filter hf
      simp only [Bool.not_eq_true', decide_eq_false_iff_not] at hne
      rcases List.mem_cons.mp (hcov f hmem) with h | h
      · exact absurd h hne
      · exact h
    have hperm := ih (files.filter (fun f => ! decide (groupKey f = k))) hnd' hcov'
    exact List.Perm.trans (List.Perm.append_left _ hperm)
      (List.filter_append_perm _ files)

/-- C6.  The scanner's grouping of the filtered manifest list by
(language, directory) is a partition: joining all groups' file lists
permutes the filtered input (so every file lands in exactly one group,
counted with multiplicity), every member of a group carries the
group's language and path, and group keys are pairwise distinct. -/
theorem c6_grouping_is_partition (files : List Str) :
    (((groupDependencyFilesByProject (filterDependencyFiles files)).map
        DependencyFileGroup.files).flatten).Perm (filterDependencyFiles files) ∧
    (∀ g ∈ groupDependencyFilesByProject (filterDependencyFiles files),
        ∀ f ∈ g.files, DetectLanguageFromFile f = g.language ∧
          ExtractProjectPath f = g.path) ∧
    ((groupDependencyFilesByProject (filterDependencyFiles files)).map
        (fun g => (g.language, g.path))).Nodup := by
  refine ⟨?_, ?_, ?_⟩
  · unfold groupDependencyFilesByProject
    rw [List.map_map]
    exact bucket_join_perm _ _ (keysIn_nodup _)
      (fun f hf => mem_keysIn_of_mem (List.mem_map_of_mem groupKey hf))
  · intro g hg f hf
    unfold groupDependencyFilesByProject at hg
    rcases List.mem_map.mp hg with ⟨k, _, rfl⟩
    have := List.of_mem_filter hf
    simp only [decide_eq_true_eq] at this
    have h1 : DetectLanguageFromFile f = k.1 := congrArg Prod.fst this
    have h2 : ExtractProjectPath f = k.2 := congrArg Prod.snd this
    exact ⟨h1, h2⟩
  · unfold groupDependencyFilesByProject
    rw [List.map_map]
    have hid : ∀ l : List (Str × Str),
        (l.map ((fun g : DependencyFileGroup => (g.language, g.path)) ∘
          (fun k : Str × Str =>
            ({ language := k.1, path := k.2,
               files := (filterDependencyFiles files).filter
                 (fun file => decide (groupKey file = k)) } : DependencyFileGroup)))) = l := by
      intro l
      induction l with
      | nil => rfl
      | cons x xs ih => simp [ih]
    rw [hid]
    exact keysIn_nodup _

/-- C6 instantiated: in the grouping of a two-file monorepo listing,
the root group's member carries the group's language and path. -/
theorem c6_grouping_is_partition_witness :
    DetectLanguageFromFile (("go.mod").data) = ("go").data ∧
    ExtractProjectPath (("go.mod").data) = [] :=
  (c6_grouping_is_partition [(("go.mod").data), (("backend/package.json").data)]).2.1
    { language := ("go").data, path := [],
      files := [(("go.mod").data)] } (by decide) (("go.mod").data) (by decide)

/-- The paths of the dependency files a group contributes are exactly
its member files whose content fetch succeeds, in order. -/
theorem fetch_filterMap_paths (env : ScanEnv) (repo : Repository) (lang : Str)
    (files : List Str) :
    ((files.filterMap (fun file =>
        match env.GetFileContent repo.URL file with
        | .error _ => none
        | .ok content =>
          some ({ Path := file, Language := lang, Content := content,
                  LastModified := env.now } : DependencyFile))).map
      (fun f => f.Path)) =
      files.filter (fun file => exceptOk (env.GetFileContent repo.URL file)) := by
  induction files with
  | nil => rfl
  | cons f rest ih =>
    cases hc : env.GetFileContent repo.URL f <;>
      simp [List.filterMap_cons, List.filter_cons, hc, exceptOk, ih]

/-- C5.  In `DetectProjects`, (1) a file-listing failure is returned as
a wrapped error naming the repository; (2) after a successful listing
the call always succeeds; (3) a per-file content-fetch failure only
removes that file from its group's manifest set; and (4) a group whose
fetched file set is empty contributes no project: every returned
project has at least one dependency file. -/
theorem c5_detectProjects_error_granularity :
    (∀ (env : ScanEnv) (repo : Repository) (e : Str),
        env.GetFilesList repo.URL = .error e →
        DetectProjects env repo = .error
          ((("failed to get files list for repository ").data ++ repo.Name ++
            (": ").data ++ e))) ∧
    (∀ (env : ScanEnv) (repo : Repository) (files : List Str),
        env.GetFilesList repo.URL = .ok files →
        exceptOk (DetectProjects env repo) = true) ∧
    (∀ (env : ScanEnv) (repo : Repository) (group : DependencyFileGroup),
        ((createProjectFromGroup env repo group).DependencyFiles.map
          (fun f => f.Path)) =
          group.files.filter (fun file => exceptOk (env.GetFileContent repo.URL file))) ∧
    (∀ (env : ScanEnv) (repo : Repository) (projects : List Project),
        DetectProjects env repo = .ok projects →
        ∀ p ∈ projects, p.DependencyFiles ≠ []) := by
  refine ⟨?_, ?_, ?_, ?_⟩
  · intro env repo e h
    unfold DetectProjects
    rw [h]
  · intro env repo files h
    unfold DetectProjects
    rw [h]
    by_cases hd : filterDependencyFiles files = [] <;> simp [hd, exceptOk]
  · intro env repo group
    unfold createProjectFromGroup
    exact fetch_filterMap_paths env repo group.language group.files
  · intro env repo projects h p hp
    unfold DetectProjects at h
    cases hfl : env.GetFilesList repo.URL with
    | error e => rw [hfl] at h; cases h
    | ok files =>
      rw [hfl] at h
      dsimp only at h
      by_cases hd : filterDependencyFiles files = []
      · rw [if_pos hd] at h
        cases h
        cases hp
      · rw [if_neg hd] at h
        cases h
        rcases List.mem_filterMap.mp hp with ⟨g, _, hsome⟩
        by_cases hlen : (createProjectFromGroup env repo g).DependencyFiles.length > 0
        · rw [if_pos hlen] at hsome
          cases hsome
          intro hnil
          rw [hnil] at hlen
          simp at hlen
        · rw [if_neg hlen] at hsome
          cases hsome

/-- C5 instantiated: a listing failure is returned wrapped, while a
successful listing with one unfetchable file still succeeds. -/
theorem c5_detectProjects_error_granularity_witness :
    DetectProjects envC5a repoC5 = .error
      ((("failed to get files list for repository ").data ++ repoC5.Name ++
        (": ").data ++ ("boom").data)) ∧
    exceptOk (DetectProjects envC5b repoC5) = true :=
  ⟨c5_detectProjects_error_granularity.1 envC5a repoC5 (("boom").data) rfl,
   c5_detectProjects_error_granularity.2.1 envC5b repoC5
     [("go.mod").data, ("backend/go.mod").data] rfl⟩

/-- C7.  A repository listing exactly a root `go.mod` and a
`backend/package.json`, both fetchable, yields exactly two projects:
the root Go project (path `""`, language `"go"`) and the backend
Node.js project (path `"backend"`, language `"nodejs"`). -/
theorem c7_monorepo_two_projects :
    DetectProjects envC7 repoC7 = .ok [projC7go, projC7node] ∧
    (projC7go.Path = [] ∧ projC7go.Language = ("go").data) ∧
    (projC7node.Path = ("backend").data ∧ projC7node.Language = ("nodejs").data) :=
  ⟨rfl, ⟨rfl, rfl⟩, ⟨rfl, rfl⟩⟩

/-- Every file the manifest filter keeps detects as one of the four
supported languages. -/
theorem detect_of_supported (f : Str) (h : Base f ∈ SupportedFileTypes) :
    DetectLanguageFromFile f ∈
      [("go").data, ("nodejs").data, ("java").data, ("python").data] := by
  unfold DetectLanguageFromFile
  simp only [SupportedFileTypes, List.mem_cons, List.not_mem_nil, or_false] at h
  rcases h with h | h | h | h | h | h | h | h | h | h | h | h | h <;> rw [h] <;> decide

/-- C10.  Every project `DetectProjects` returns carries one of the
four supported languages; every supported filename detects to a
non-`unknown` language; and conversely any path detecting to a
non-`unknown` language has a lower-cased basename in the lower-cased
supported set — the filter set and the detection switch cover the same
basenames up to the case-sensitivity of the filter. -/
theorem c10_detected_language_recognized :
    (∀ (env : ScanEnv) (repo : Repository) (projects : List Project),
        DetectProjects env repo = .ok projects →
        ∀ p ∈ projects, p.Language ∈
          [("go").data, ("nodejs").data, ("java").data, ("python").data]) ∧
    (∀ name ∈ SupportedFileTypes, DetectLanguageFromFile name ≠ ("unknown").data) ∧
    (∀ path : Str, DetectLanguageFromFile path ≠ ("unknown").data →
        (Base path).map toLowerChar ∈
          SupportedFileTypes.map (fun s => s.map toLowerChar)) := by
  refine ⟨?_, ?_, ?_⟩
  · intro env repo projects h p hp
    unfold DetectProjects at h
    cases hfl : env.GetFilesList repo.URL with
    | error e => rw [hfl] at h; cases h
    | ok files =>
      rw [hfl] at h
      dsimp only at h
      by_cases hd : filterDependencyFiles files = []
      · rw [if_pos hd] at h
        cases h
        cases hp
      · rw [if_neg hd] at h
        cases h
        rcases List.mem_filterMap.mp hp with ⟨g, hg, hsome⟩
        have hpg : p.Language = g.language := by
          by_cases hlen : (createProjectFromGroup env repo g).DependencyFiles.length > 0
          · rw [if_pos hlen] at hsome
            cases hsome
            rfl
          · rw [if_neg hlen] at hsome
            cases hsome
        rw [hpg]
        unfold groupDependencyFilesByProject at hg
        rcases List.mem_map.mp hg with ⟨k, hk, rfl⟩
        have hk2 := mem_of_mem_keysIn hk
        rcases List.mem_map.mp hk2 with ⟨f, hf, rfl⟩
        have hbase := List.of_mem_filter hf
        simp only [decide_eq_true_eq] at hbase
        exact detect_of_supported f hbase
  · intro name h
    simp only [SupportedFileTypes, List.mem_cons, List.not_mem_nil, or_false] at h
    rcases h with h | h | h | h | h | h | h | h | h | h | h | h | h <;> subst h <;> decide
  · intro path h
    unfold DetectLanguageFromFile at h
    by_cases h1 : (Base path).map toLowerChar = ("go.mod").data ∨
        (Base path).map toLowerChar = ("go.sum").data
    · rcases h1 with h1 | h1 <;> rw [h1] <;> decide
    by_cases h2 : (Base path).map toLowerChar = ("package.json").data ∨
        (Base path).map toLowerChar = ("package-lock.json").data ∨
        (Base path).map toLowerChar = ("yarn.lock").data
    · rcases h2 with h2 | h2 | h2 <;> rw [h2] <;> decide
    by_cases h3 : (Base path).map toLowerChar = ("pom.xml").data ∨
        (Base path).map toLowerChar = ("build.gradle").data ∨
        (Base path).map toLowerChar = ("gradle.lockfile").data
    · rcases h3 with h3 | h3 | h3 <;> rw [h3] <;> decide
    by_cases h4 : (Base path).map toLowerChar = ("requirements.txt").data ∨
        (Base path).map toLowerChar = ("pipfile").data ∨
        (Base path).map toLowerChar = ("poetry.lock").data ∨
        (Base path).map toLowerChar = ("uv.lock").data ∨
        (Base path).map toLowerChar = ("setup.py").data
    · rcases h4 with h4 | h4 | h4 | h4 | h4 <;> rw [h4] <;> decide
    · exact absurd (by simp only [h1, h2, h3, h4, if_false]) h

/-- C10 instantiated: the Python project detected from a `Pipfile`
repository has a supported language. -/
theorem c10_detected_language_recognized_witness :
    projC10.Language ∈
      [("go").data, ("nodejs").data, ("java").data, ("python").data] :=
  c10_detected_language_recognized.1 envC10 repoC10 [projC10] rfl projC10
    (List.mem_singleton.mpr rfl)

/-- Classifying one parsed list counts each dependency exactly once,
and keeps the list length. -/
theorem classify_counts (env : Env) (deps : List Dependency) :
    (classifyDependenciesConcurrently env deps).internalCount +
        (classifyDependenciesConcurrently env deps).externalCount =
      (classifyDependenciesConcurrently env deps).deps.length ∧
    (classifyDependenciesConcurrently env deps).deps.length = deps.length := by
  induction deps with
  | nil => simp [classifyDependenciesConcurrently]
  | cons d rest ih =>
    simp only [classifyDependenciesConcurrently]
    cases h : env.IsInternal d <;> simp [h] <;> omega

/-- Per project-file processing, internal + external equals the number
of dependencies produced. -/
theorem processFiles_counts (env : Env) (files : List DependencyFile) :
    (processProjectFiles env files).internalCount +
        (processProjectFiles env files).externalCount =
      (processProjectFiles env files).deps.length := by
  induction files with
  | nil => simp [processProjectFiles]
  | cons f rest ih =>
    simp only [processProjectFiles]
    cases h : env.ParseFile f with
    | error e => simpa [h] using ih
    | ok deps =>
      have hc := classify_counts env deps
      simp [h]
      omega

/-- Theorem on `processProject` counters: internal + external = dependency count,
and the count is the length of the dependency list it stores back into
the project. -/
theorem processProject_counts (env : Env) (p : Project) :
    (processProject env p).internalCount + (processProject env p).externalCount =
        (processProject env p).depsCount ∧
    (processProject env p).depsCount =
        (processProject env p).project.Dependencies.length := by
  unfold processProject
  exact ⟨processFiles_counts env p.DependencyFiles, rfl⟩

/-- The orchestrator-level totals: internal + external equals the
total, and the total is the sum of the kept projects' dependency-list
lengths. -/
theorem processAll_counts (env : Env) (projects : List Project) :
    (processProjectsConcurrently env projects).internalCount +
        (processProjectsConcurrently env projects).externalCount =
      (processProjectsConcurrently env projects).totalDependencies ∧
    (processProjectsConcurrently env projects).totalDependencies =
      (((processProjectsConcurrently env projects).projects).map
        (fun p => p.Dependencies.length)).sum := by
  induction projects with
  | nil => simp [processProjectsConcurrently]
  | cons p rest ih =>
    have hp := processProject_counts env p
    simp only [processProjectsConcurrently, List.map_cons, List.sum_cons]
    constructor
    · omega
    · omega

/-- C2.  Whenever `Execute` returns a non-error response, its counters
satisfy internal + external = total, and the total equals the sum of
`len(project.Dependencies)` over the projects kept in the final
project list (the processed projects handed to the report generator). -/
theorem c2_execute_counters (env : Env) (urls : List Str) (repos : List Repository)
    (r : AnalyzeResponse)
    (h1 : resolveRepositories env urls = .ok repos)
    (h2 : Execute env urls = .ok r) :
    r.InternalCount + r.ExternalCount = r.TotalDependencies ∧
    r.TotalDependencies =
      (((processProjectsConcurrently env (detectAllProjects env repos)).projects).map
        (fun p => p.Dependencies.length)).sum := by
  unfold Execute at h2
  rw [h1] at h2
  dsimp only at h2
  cases hg : env.GenerateHTML
      (processProjectsConcurrently env (detectAllProjects env repos)).projects with
  | error e => rw [hg] at h2; cases h2
  | ok u =>
    rw [hg] at h2
    cases h2
    exact ⟨(processAll_counts env (detectAllProjects env repos)).1,
           (processAll_counts env (detectAllProjects env repos)).2⟩

/-- C2 instantiated on a concrete one-repository run with one internal
and one external dependency. -/
theorem c2_execute_counters_witness :
    1 + 1 = 2 ∧
    2 = (((processProjectsConcurrently envC2 (detectAllProjects envC2 [repoC2])).projects).map
      (fun p => p.Dependencies.length)).sum :=
  c2_execute_counters envC2 [(("u").data)] [repoC2]
    { TotalProjects := 1, TotalDependencies := 2, InternalCount := 1, ExternalCount := 1 }
    rfl rfl

/-- If any URL in the list fails to resolve, the whole resolution
phase fails (with whichever collected error wins). -/
theorem resolve_error_of_mem (env : Env) (urls : List Str) (u e : Str)
    (hmem : u ∈ urls) (herr : env.GetRepositoriesList u = .error e) :
    ∃ e2, resolveRepositories env urls = .error e2 := by
  induction urls with
  | nil => cases hmem
  | cons v rest ih =>
    rcases List.mem_cons.mp hmem with rfl | h2
    · exact ⟨e, by simp [resolveRepositories, herr]⟩
    · cases hv : env.GetRepositoriesList v with
      | error e3 => exact ⟨e3, by simp [resolveRepositories, hv]⟩
      | ok repos =>
        rcases ih h2 with ⟨e2, hrest⟩
        exact ⟨e2, by simp [resolveRepositories, hv, hrest]⟩

/-- C3 (amended).  Any single URL's resolution error aborts the whole
`Execute` call with a nil result and a non-nil error; with a single
source URL the error returned is the collaborator's error itself,
passed through unwrapped — so it contains the URL exactly when the
collaborator's error does. -/
theorem c3_execute_resolution_error_aborts :
    (∀ (env : Env) (urls : List Str) (u e : Str),
        u ∈ urls → env.GetRepositoriesList u = .error e →
        exceptOk (Execute env urls) = false) ∧
    (∀ (env : Env) (url e : Str),
        env.GetRepositoriesList url = .error e →
        Execute env [url] = .error e) := by
  constructor
  · intro env urls u e hmem herr
    rcases resolve_error_of_mem env urls u e hmem herr with ⟨e2, hres⟩
    unfold Execute
    rw [hres]
    rfl
  · intro env url e herr
    unfold Execute resolveRepositories
    rw [herr]

/-- C3 counterexample to the claim as stated: a collaborator error
that does not mention the URL is returned verbatim by `Execute`, so
the returned error does not contain the URL. -/
theorem c3_execute_error_passthrough_counterexample :
    Execute envErr [(("https://gitlab.example/group").data)] =
        .error (("mock failure").data) ∧
    strContains (("mock failure").data) (("https://gitlab.example/group").data) = false :=
  ⟨rfl, by decide⟩

/-- C3 instantiated: a failing single-URL run aborts with the
collaborator's error. -/
theorem c3_execute_resolution_error_aborts_witness :
    Execute envErr [(("u2").data)] = .error (("mock failure").data) :=
  c3_execute_resolution_error_aborts.2 envErr (("u2").data) (("mock failure").data) rfl

/-- The scan phase yields, per repository, its detected projects or
nothing on a scan error; the total project count is the sum of the
successes. -/
theorem detectAll_length (env : Env) (repos : List Repository) :
    (detectAllProjects env repos).length =
      (repos.map (fun repo =>
        match env.DetectProjects repo with
        | .ok projects => projects.length
        | .error _ => 0)).sum := by
  induction repos with
  | nil => rfl
  | cons repo rest ih =>
    simp only [detectAllProjects, List.length_append, List.map_cons, List.sum_cons, ih]
    cases env.DetectProjects repo <;> simp

/-- C4.  A `DetectProjects` failure for one repository never aborts
`Execute`: provided resolution and report generation succeed, the call
returns a non-error response whose `TotalProjects` is the sum over the
repositories of the project counts of the *successful* scans only,
failing repositories contributing zero. -/
theorem c4_execute_scan_failure_tolerant (env : Env) (urls : List Str)
    (repos : List Repository)
    (h1 : resolveRepositories env urls = .ok repos)
    (h2 : env.GenerateHTML
      (processProjectsConcurrently env (detectAllProjects env repos)).projects = .ok ()) :
    Execute env urls = .ok
      { TotalProjects := (detectAllProjects env repos).length,
        TotalDependencies :=
          (processProjectsConcurrently env (detectAllProjects env repos)).totalDependencies,
        InternalCount :=
          (processProjectsConcurrently env (detectAllProjects env repos)).internalCount,
        ExternalCount :=
          (processProjectsConcurrently env (detectAllProjects env repos)).externalCount } ∧
    (detectAllProjects env repos).length =
      (repos.map (fun repo =>
        match env.DetectProjects repo with
        | .ok projects => projects.length
        | .error _ => 0)).sum := by
  constructor
  · unfold Execute
    rw [h1]
    dsimp only
    rw [h2]
  · exact detectAll_length env repos

/-- C4 instantiated: three repositories with the scanner failing on
the middle one still produce a non-error result counting only the two
successful repositories' projects. -/
theorem c4_execute_scan_failure_tolerant_witness :
    Execute envC4 [(("u").data)] = .ok
      { TotalProjects := (detectAllProjects envC4 [repoA, repoB, repoC]).length,
        TotalDependencies :=
          (processProjectsConcurrently envC4
            (detectAllProjects envC4 [repoA, repoB, repoC])).totalDependencies,
        InternalCount :=
          (processProjectsConcurrently envC4
            (detectAllProjects envC4 [repoA, repoB, repoC])).internalCount,
        ExternalCount :=
          (processProjectsConcurrently envC4
            (detectAllProjects envC4 [repoA, repoB, repoC])).externalCount } ∧
    (detectAllProjects envC4 [repoA, repoB, repoC]).length =
      ([repoA, repoB, repoC].map (fun repo =>
        match envC4.DetectProjects repo with
        | .ok projects => projects.length
        | .error _ => 0)).sum :=
  c4_execute_scan_failure_tolerant envC4 [(("u").data)] [repoA, repoB, repoC] rfl rfl

end DiMatrix
